import Mathlib

/-!
Verification development for the school bell system
(`school_bell_system.py`): a shallow embedding of the time parser
(`parse_time_to_24h`), the bell engine loop (`ringBell`), and the
in-memory schedule store (`BELL_SCHEDULES` with its accessor functions),
together with theorems settling the specified properties.

Strings are modelled through their character lists; Python integers are
modelled as `Int` (so a leading minus sign parses, as in Python `int`);
the global mode flag is passed to the engine as an explicit per-tick
input, and the engine loop is modelled as a step function driven by a
list of poll-tick observations (mode, date, hour, minute).
-/

set_option autoImplicit false

deriving instance DecidableEq for Except

/-! ### Python string primitives used by the parser -/

/-- Whitespace recognised by Python `str.strip` (the ASCII cases). -/
def pyIsSpace (c : Char) : Bool :=
  c = ' ' || c = '\t' || c = '\n' || c = '\r'

/-- Python `s.strip()`: drop whitespace from both ends. -/
def pyStrip (s : List Char) : List Char :=
  ((s.dropWhile pyIsSpace).reverse.dropWhile pyIsSpace).reverse

/-- Python `s.lower()` (ASCII case). -/
def pyLower (s : List Char) : List Char :=
  s.map Char.toLower

/-- Python `pat in s` for a two-character pattern `pat = [a, b]`. -/
def containsSub2 (a b : Char) : List Char → Bool
  | [] => false
  | [_] => false
  | c1 :: c2 :: rest => (c1 = a && c2 = b) || containsSub2 a b (c2 :: rest)

/-- Python `s.replace(pat, "")` for a two-character pattern `pat = [a, b]`:
remove every non-overlapping occurrence, scanning left to right. -/
def removeAll2Go (a b : Char) : Option Char → List Char → List Char
  | none, [] => []
  | some c, [] => [c]
  | none, c :: rest => removeAll2Go a b (some c) rest
  | some c1, c2 :: rest =>
    if c1 = a && c2 = b then removeAll2Go a b none rest
    else c1 :: removeAll2Go a b (some c2) rest

def removeAll2 (a b : Char) (s : List Char) : List Char :=
  removeAll2Go a b none s

/-- Python `s.split(":")`: split on every colon, keeping empty parts.
The result is always non-empty. -/
def splitOnColon : List Char → List (List Char)
  | [] => [[]]
  | c :: rest =>
    match splitOnColon rest with
    | [] => [[]]
    | p :: ps => if c = ':' then [] :: p :: ps else (c :: p) :: ps

/-- Value of a non-empty all-digit character list, `none` otherwise. -/
def digitsVal (s : List Char) : Option Nat :=
  if s ≠ [] && s.all Char.isDigit then
    some (s.foldl (fun acc c => acc * 10 + (c.toNat - 48)) 0)
  else none

/-- Python `int(s)` on a string: strip whitespace, optional single sign,
then decimal digits; `none` models the `ValueError`. -/
def pyInt (s : List Char) : Option Int :=
  match pyStrip s with
  | '-' :: rest => (digitsVal rest).map (fun n => -(n : Int))
  | '+' :: rest => (digitsVal rest).map (fun n => (n : Int))
  | s1 => (digitsVal s1).map (fun n => (n : Int))

/-! ### TimeParser: `parse_time_to_24h` (source lines 55-98) -/

/-- The hour/minute pair computed by `parse_time_to_24h` before the final
`f"{h:02d}:{m:02d}"` formatting; `Except.error` models the raised
`ValueError` (any uncaught `int()` failure included). -/
def parse_time_to_24h_hm (t : String) : Except String (Int × Int) :=
  let s := pyLower (pyStrip t.data)
  if s = [] then .error "Empty time"
  else
    let hasAm := containsSub2 'a' 'm' s
    let s1 := if hasAm then removeAll2 'a' 'm' s else s
    let hasPm := containsSub2 'p' 'm' s1
    if hasAm && hasPm then .error "Both AM and PM present"
    else
      let s2 := if hasPm then removeAll2 'p' 'm' s1 else s1
      let s3 := pyStrip s2
      let hm? : Option (Int × Int) :=
        if s3.contains ':' then
          match splitOnColon s3 with
          | [a, b] =>
            match pyInt a, pyInt b with
            | some h, some m => some (h, m)
            | _, _ => none
          | _ => none
        else (pyInt s3).map (fun h => (h, 0))
      match hm? with
      | none => .error "Invalid time format"
      | some (h, m) =>
        let h :=
          if hasAm then (if h = 12 then 0 else h)
          else if hasPm then (if h ≠ 12 then h + 12 else h)
          else h
        if 0 ≤ h && h ≤ 23 && 0 ≤ m && m ≤ 59 then .ok (h, m)
        else .error "Time out of range"

/-- Two-digit decimal rendering (`f"{n:02d}"` for `0 ≤ n ≤ 99`). -/
def two_digit (n : Nat) : List Char :=
  [Char.ofNat (48 + n / 10), Char.ofNat (48 + n % 10)]

/-- `parse_time_to_24h`: the canonical `"HH:MM"` string returned by the
source function. -/
def parse_time_to_24h (t : String) : Except String String :=
  (parse_time_to_24h_hm t).map
    (fun p => ⟨two_digit p.1.toNat ++ ':' :: two_digit p.2.toNat⟩)

/-- The canonical 24-hour input string `"HH:MM"` for hour `h`, minute `m`. -/
def mkHHMM (h m : Nat) : String :=
  ⟨two_digit h ++ ':' :: two_digit m⟩

/-- Decimal rendering of `n ≤ 99` without padding (user-style input). -/
def natChars (n : Nat) : List Char :=
  if n < 10 then [Char.ofNat (48 + n)] else two_digit n

/-! ### BellEngine: `ringBell` (source lines 105-172)

The loop body is a step function over the per-invocation state
(`rung_today`, `start_date`); each poll tick observes the global mode
flag and the wall clock, modelled as explicit inputs. Dates are
abstract day numbers (only equality of dates is used by the source). -/

/-- One poll-tick observation: `CURRENT_MODE`, `date.today()`, and the
hour/minute of `datetime.now()`. -/
structure Tick where
  mode : String
  today : Nat
  hour : Nat
  minute : Nat
deriving DecidableEq

/-- Per-invocation engine state: `rung_today` and `start_date`
(source lines 138-139). -/
structure EngineState where
  rung_today : List (Nat × Nat)
  start_date : Nat
deriving DecidableEq

/-- The firing check at the end of the loop body (source lines 160-167):
ring iff the current `(hour, minute)` is scheduled and not yet rung. -/
def engineFire (schedule : List (Nat × Nat)) (hour minute : Nat)
    (st : EngineState) : EngineState × Option Bool :=
  if (hour, minute) ∈ schedule && (hour, minute) ∉ st.rung_today then
    ({ st with rung_today := (hour, minute) :: st.rung_today }, some true)
  else (st, some false)

/-- One iteration of the `while True` loop (source lines 142-169).
Returns the new state and `none` when the loop `break`s (today-only
expiry), or `some played` where `played` records whether the bell was
rung on this tick. -/
def engineStep (today_only : Bool) (schedule : List (Nat × Nat))
    (mode : String) (today hour minute : Nat) (st : EngineState) :
    EngineState × Option Bool :=
  if mode ≠ "BELL" then (st, some false)
  else if today_only && today ≠ st.start_date then (st, none)
  else
    engineFire schedule hour minute
      (if today ≠ st.start_date && !today_only then
        { rung_today := [], start_date := today }
      else st)

/-- The loop driven by a list of poll-tick observations. Returns the
final state, the list of `(hour, minute)` values at which the bell was
rung (each rings corresponds to one `pygame.mixer.music.play()` call),
and whether the loop terminated by the today-only `break` (in which
case the remaining ticks are not processed). -/
def engineRun (today_only : Bool) (schedule : List (Nat × Nat)) :
    List Tick → EngineState → EngineState × List (Nat × Nat) × Bool
  | [], st => (st, [], false)
  | t :: rest, st =>
    match engineStep today_only schedule t.mode t.today t.hour t.minute st with
    | (st1, none) => (st1, [], true)
    | (st1, some played) =>
      let r := engineRun today_only schedule rest st1
      (r.1, (if played then [(t.hour, t.minute)] else []) ++ r.2.1, r.2.2)

/-- Validation of one schedule entry (source lines 122-129):
`h, m = map(int, t.split(":"))` with the `0 ≤ h ≤ 23`, `0 ≤ m ≤ 59`
range check; any failure is caught and the entry is skipped. -/
def ringBell_parse (t : String) : Option (Nat × Nat) :=
  match splitOnColon t.data with
  | [a, b] =>
    match pyInt a, pyInt b with
    | some h, some m =>
      if 0 ≤ h && h ≤ 23 && 0 ≤ m && m ≤ 59 then some (h.toNat, m.toNat)
      else none
    | _, _ => none
  | _ => none

/-- The validated schedule set built by `ringBell` before the loop
(source lines 113-132): `none` models the two early returns (empty
`schedule_list`, and no valid entry after parsing); `dedup` models the
Python `set`. -/
def ringBell_start (schedule_list : List String) : Option (List (Nat × Nat)) :=
  if schedule_list = [] then none
  else
    let schedule := (schedule_list.filterMap ringBell_parse).dedup
    if schedule = [] then none
    else some schedule

/-- The whole `ringBell` call: `none` when the function returns before
entering the loop (the `NoValidEntries` cases); otherwise the loop runs
from `rung_today = ∅`, `start_date = today0` over the given ticks. -/
def ringBell (schedule_list : List String) (today0 : Nat)
    (today_only : Bool) (ticks : List Tick) :
    Option (EngineState × List (Nat × Nat) × Bool) :=
  match ringBell_start schedule_list with
  | none => none
  | some schedule =>
    some (engineRun today_only schedule ticks ⟨[], today0⟩)

/-! ### ScheduleStore: `BELL_SCHEDULES` and its accessors
(source lines 179-200)

A Python dict is modelled as an insertion-ordered association list with
unique keys: assignment replaces the value in place when the key is
present and appends otherwise; `del` removes the entry of the key. -/

/-- The in-memory store: insertion-ordered `name ↦ times` entries. -/
abbrev Store := List (String × List String)

/-- Python `d.get(k, None)`. -/
def dictGet (k : String) : Store → Option (List String)
  | [] => none
  | p :: rest => if p.1 = k then some p.2 else dictGet k rest

/-- Python `d[k] = v`: replace in place if present, else append. -/
def dictSet (k : String) (v : List String) : Store → Store
  | [] => [(k, v)]
  | p :: rest => if p.1 = k then (k, v) :: rest else p :: dictSet k v rest

/-- Python `del d[k]`: drop the entry at the first occurrence of `k`
(the only one, since dict keys are unique). -/
def dictDel (k : String) : Store → Store
  | [] => []
  | p :: rest => if p.1 = k then rest else p :: dictDel k rest

/-- The initial `BELL_SCHEDULES` dict (source lines 179-182). -/
def BELL_SCHEDULES : Store :=
  [("Regular Day", ["08:30", "09:30", "10:30", "11:30", "12:30"]),
   ("Short Friday", ["08:30", "09:15", "10:00", "10:45"])]

/-- `list_schedule_names()` (source lines 184-185). -/
def list_schedule_names (d : Store) : List String :=
  d.map Prod.fst

/-- `get_schedule(name)` (source lines 187-188). -/
def get_schedule (name : String) (d : Store) : Option (List String) :=
  dictGet name d

/-- `update_schedule(name, time_list)` (source lines 190-191): plain
dict assignment, storing `time_list` as given. -/
def update_schedule (name : String) (time_list : List String) (d : Store) : Store :=
  dictSet name time_list d

/-- `rename_schedule(old_name, new_name)` (source lines 193-196). -/
def rename_schedule (old_name new_name : String) (d : Store) : Store :=
  match dictGet old_name d with
  | none => d
  | some v => dictDel old_name (dictSet new_name v d)

/-- `delete_schedule(name)` (source lines 198-200). -/
def delete_schedule (name : String) (d : Store) : Store :=
  match dictGet name d with
  | none => d
  | some _ => dictDel name d

/-! ### Engine lemmas -/

/-- On a tick where the mode is not `"BELL"`, the loop body only sleeps:
state unchanged, no ring, no termination (source lines 144-146). -/
theorem engineStep_ne_bell (today_only : Bool) (sched : List (Nat × Nat))
    (mode : String) (today hour minute : Nat) (st : EngineState)
    (h : mode ≠ "BELL") :
    engineStep today_only sched mode today hour minute st = (st, some false) := by
  simp [engineStep, h]

/-- On a `"BELL"`-mode tick whose date equals the remembered start date,
the loop body reduces to the firing check alone. -/
theorem engineStep_bell_same_date (today_only : Bool) (sched : List (Nat × Nat))
    (today hour minute : Nat) (rung : List (Nat × Nat)) :
    engineStep today_only sched "BELL" today hour minute ⟨rung, today⟩ =
      (if (hour, minute) ∈ sched ∧ (hour, minute) ∉ rung
       then (⟨(hour, minute) :: rung, today⟩, some true)
       else (⟨rung, today⟩, some false)) := by
  simp [engineStep, engineFire]

/-- A run whose ticks all have mode ≠ `"BELL"` is a no-op prefix. -/
theorem engineRun_ne_bell_prefix (today_only : Bool) (sched : List (Nat × Nat))
    (badTicks : List Tick) (hbad : ∀ t ∈ badTicks, t.mode ≠ "BELL")
    (rest : List Tick) (st : EngineState) :
    engineRun today_only sched (badTicks ++ rest) st =
      engineRun today_only sched rest st := by
  induction badTicks with
  | nil => rfl
  | cons t ts ih =>
    have ht : t.mode ≠ "BELL" := hbad t (List.mem_cons_self t ts)
    have hts : ∀ u ∈ ts, u.mode ≠ "BELL" :=
      fun u hu => hbad u (List.mem_cons_of_mem t hu)
    simp [engineRun, engineStep_ne_bell today_only sched t.mode t.today t.hour t.minute st ht,
      ih hts]

/-- The firing check keeps `rung_today` inside the schedule set. -/
theorem engineFire_rung_subset (sched : List (Nat × Nat)) (hour minute : Nat)
    (st : EngineState) (hsub : ∀ x ∈ st.rung_today, x ∈ sched) :
    ∀ x ∈ (engineFire sched hour minute st).1.rung_today, x ∈ sched := by
  unfold engineFire
  split <;> rename_i hfire
  · simp only [Bool.and_eq_true, decide_eq_true_eq] at hfire
    intro x hx
    rcases List.mem_cons.mp hx with rfl | hx
    · exact hfire.1
    · exact hsub x hx
  · exact hsub

/-- Each step keeps `rung_today` inside the schedule set. -/
theorem engineStep_rung_subset (today_only : Bool) (sched : List (Nat × Nat))
    (mode : String) (today hour minute : Nat) (st : EngineState)
    (hsub : ∀ x ∈ st.rung_today, x ∈ sched) :
    ∀ x ∈ (engineStep today_only sched mode today hour minute st).1.rung_today,
      x ∈ sched := by
  unfold engineStep
  split
  · exact hsub
  · split
    · exact hsub
    · apply engineFire_rung_subset
      split
      · simp
      · exact hsub

/-- A whole run keeps `rung_today` inside the schedule set. -/
theorem engineRun_rung_subset (today_only : Bool) (sched : List (Nat × Nat))
    (ticks : List Tick) (st : EngineState)
    (hsub : ∀ x ∈ st.rung_today, x ∈ sched) :
    ∀ x ∈ (engineRun today_only sched ticks st).1.rung_today, x ∈ sched := by
  induction ticks generalizing st with
  | nil => exact hsub
  | cons t rest ih =>
    have hstep := engineStep_rung_subset today_only sched t.mode t.today t.hour t.minute st hsub
    simp only [engineRun]
    split <;> rename_i heq
    · rw [heq] at hstep; exact hstep
    · rw [heq] at hstep; exact ih _ hstep

/-- Ring count of one scheduled entry over a same-day all-`"BELL"` run:
zero if already in `rung_today`, else one iff some tick hits the entry. -/
theorem engineRun_count_entry (today_only : Bool) (sched : List (Nat × Nat))
    (e : Nat × Nat) (d0 : Nat) (he : e ∈ sched) :
    ∀ (ticks : List Tick) (rung : List (Nat × Nat)),
      (∀ t ∈ ticks, t.mode = "BELL" ∧ t.today = d0) →
      (engineRun today_only sched ticks ⟨rung, d0⟩).2.1.count e =
        if e ∈ rung then 0
        else if ticks.any (fun t => (t.hour, t.minute) == e) then 1 else 0 := by
  intro ticks
  induction ticks with
  | nil =>
    intro rung _
    simp [engineRun]
  | cons t rest ih =>
    intro rung hticks
    obtain ⟨hmode, htoday⟩ := hticks t (List.mem_cons_self t rest)
    have hrest : ∀ u ∈ rest, u.mode = "BELL" ∧ u.today = d0 :=
      fun u hu => hticks u (List.mem_cons_of_mem t hu)
    have hstep := engineStep_bell_same_date today_only sched d0 t.hour t.minute rung
    rw [← htoday] at hstep
    by_cases hfire : (t.hour, t.minute) ∈ sched ∧ (t.hour, t.minute) ∉ rung
    · rw [if_pos hfire] at hstep
      rw [htoday] at hstep
      simp only [engineRun, hmode, htoday, hstep, if_true, List.singleton_append,
        List.count_cons]
      rw [ih ((t.hour, t.minute) :: rung) hrest]
      by_cases hte : (t.hour, t.minute) = e
      · subst hte
        simp [hfire.2]
      · have hte2 : ¬(e = (t.hour, t.minute)) := fun h => hte h.symm
        simp [List.mem_cons, hte, hte2, beq_iff_eq]
    · rw [if_neg hfire] at hstep
      rw [htoday] at hstep
      simp only [engineRun, hmode, htoday, hstep, Bool.false_eq_true, if_false,
        List.nil_append]
      rw [ih rung hrest]
      by_cases herung : e ∈ rung
      · simp [herung]
      · have hte : ¬((t.hour, t.minute) = e) := by
          intro h
          exact hfire ⟨h ▸ he, h ▸ herung⟩
        simp [herung, hte, beq_iff_eq]

example :
    engineRun false [(8, 30)]
      [⟨"BELL", 0, 8, 29⟩, ⟨"BELL", 0, 8, 30⟩, ⟨"BELL", 0, 8, 30⟩] ⟨[], 0⟩ =
    (⟨[(8, 30)], 0⟩, [(8, 30)], false) := by decide

example :
    engineRun true [(8, 30)] [⟨"BELL", 1, 8, 30⟩, ⟨"BELL", 1, 8, 30⟩] ⟨[], 0⟩ =
    (⟨[], 0⟩, [], true) := by decide

/-! ### Store lemmas -/

theorem dictGet_eq_none_of_not_mem (k : String) (d : Store)
    (h : k ∉ d.map Prod.fst) : dictGet k d = none := by
  induction d with
  | nil => rfl
  | cons p rest ih =>
    simp only [List.map_cons, List.mem_cons] at h
    push_neg at h
    simp only [dictGet, if_neg (fun hh : p.1 = k => h.1 hh.symm)]
    exact ih h.2

theorem dictGet_dictSet_self (k : String) (v : List String) (d : Store) :
    dictGet k (dictSet k v d) = some v := by
  induction d with
  | nil => simp [dictSet, dictGet]
  | cons p rest ih =>
    by_cases hp : p.1 = k
    · simp [dictSet, hp, dictGet]
    · simp [dictSet, hp, dictGet, ih]

theorem mem_keys_dictSet (k : String) (v : List String) (x : String) (d : Store) :
    x ∈ (dictSet k v d).map Prod.fst ↔ x ∈ d.map Prod.fst ∨ x = k := by
  induction d with
  | nil => simp [dictSet]
  | cons p rest ih =>
    by_cases hp : p.1 = k
    · have hset : dictSet k v (p :: rest) = (k, v) :: rest := by
        simp [dictSet, hp]
      rw [hset]
      simp only [List.map_cons, List.mem_cons, hp]
      tauto
    · have hset : dictSet k v (p :: rest) = p :: dictSet k v rest := by
        simp [dictSet, hp]
      rw [hset]
      simp only [List.map_cons, List.mem_cons, ih]
      tauto

theorem nodup_keys_dictSet (k : String) (v : List String) (d : Store)
    (h : (d.map Prod.fst).Nodup) : ((dictSet k v d).map Prod.fst).Nodup := by
  induction d with
  | nil => simp [dictSet]
  | cons p rest ih =>
    simp only [List.map_cons, List.nodup_cons] at h
    by_cases hp : p.1 = k
    · simp only [dictSet, if_pos hp, List.map_cons, List.nodup_cons]
      exact ⟨hp ▸ h.1, h.2⟩
    · simp only [dictSet, if_neg hp, List.map_cons, List.nodup_cons,
        mem_keys_dictSet]
      exact ⟨fun hm => hm.elim h.1 hp, ih h.2⟩

theorem dictGet_dictDel_self (k : String) (d : Store)
    (h : (d.map Prod.fst).Nodup) : dictGet k (dictDel k d) = none := by
  induction d with
  | nil => rfl
  | cons p rest ih =>
    simp only [List.map_cons, List.nodup_cons] at h
    by_cases hp : p.1 = k
    · simp only [dictDel, if_pos hp]
      exact dictGet_eq_none_of_not_mem k rest (hp ▸ h.1)
    · simp only [dictDel, if_neg hp, dictGet, if_neg hp]
      exact ih h.2

/-! ### Bounded evaluation of the parser -/

/-- Exhaustive check of the 24-hour round trip over all 1440 canonical
`"HH:MM"` strings. -/
theorem parse24_roundtrip_all :
    ∀ a : Fin 24, ∀ b : Fin 60,
      (parse_time_to_24h_hm (mkHHMM a.1 b.1)).toOption =
        some ((a.1 : Int), (b.1 : Int)) ∧
      (parse_time_to_24h (mkHHMM a.1 b.1)).toOption = some (mkHHMM a.1 b.1) := by
  decide

/-- Exhaustive check of the am/pm hour conversion over all one- and
two-digit hour inputs `"Ham"` / `"Hpm"`: `12am ↦ 0`, `12pm ↦ 12`, other
pm hours get `12` added, and the only rejection is the final
`0 ≤ h ≤ 23` range check — no `1 ≤ h ≤ 12` requirement. -/
theorem parse_ampm_all :
    ∀ a : Fin 100,
      ((parse_time_to_24h_hm ⟨natChars a.1 ++ ['a', 'm']⟩).toOption =
        if a.1 = 12 then some (0, 0)
        else if a.1 ≤ 23 then some ((a.1 : Int), 0) else none) ∧
      ((parse_time_to_24h_hm ⟨natChars a.1 ++ ['p', 'm']⟩).toOption =
        if a.1 = 12 then some (12, 0)
        else if a.1 ≤ 11 then some ((a.1 : Int) + 12, 0) else none) := by
  decide

example : parse_time_to_24h_hm "9:30pm" = .ok (21, 30) := by decide
example : parse_time_to_24h_hm "12am" = .ok (0, 0) := by decide
example : parse_time_to_24h_hm "12pm" = .ok (12, 0) := by decide
example : parse_time_to_24h_hm " 9 am" = .ok (9, 0) := by decide
example : parse_time_to_24h_hm "9ampm" = .error "Both AM and PM present" := by decide
example : parse_time_to_24h_hm "" = .error "Empty time" := by decide
example : parse_time_to_24h_hm "0am" = .ok (0, 0) := by decide
example : parse_time_to_24h_hm "15am" = .ok (15, 0) := by decide
example : parse_time_to_24h "08:30" = .ok "08:30" := by decide

/-! ### Claims -/

/-- C1 counterexample: on a poll tick with date `1` differing from the
remembered start date `0` but mode `"ASSEMBLY"`, the engine does NOT
advance the start date and does NOT clear the fired-today set — the
mode check at the top of the loop `continue`s past the rollover
bookkeeping, so the reset does not happen while Mode ≠ BELL. -/
theorem bell_C1_counterexample :
    engineStep false [(8, 30)] "ASSEMBLY" 1 8 30 ⟨[(8, 30)], 0⟩ =
      (⟨[(8, 30)], 0⟩, some false) := by decide

/-- C1 (amended): in a non-today-only run, on a poll tick whose date
differs from the remembered start date, the engine advances the start
date and clears the fired-today set only when the current Mode is BELL;
on a tick with Mode ≠ BELL the whole loop body is skipped (state
untouched, no firing), deferring the reset to the next BELL-mode tick. -/
theorem bell_C1_amended (sched : List (Nat × Nat)) (mode : String)
    (today hour minute : Nat) (st : EngineState) (hd : today ≠ st.start_date) :
    (mode = "BELL" →
      engineStep false sched mode today hour minute st =
        (if (hour, minute) ∈ sched then (⟨[(hour, minute)], today⟩, some true)
         else (⟨[], today⟩, some false)))
    ∧ (mode ≠ "BELL" →
      engineStep false sched mode today hour minute st = (st, some false)) := by
  constructor
  · intro hm
    subst hm
    simp only [engineStep, engineFire]
    simp [hd]
  · exact engineStep_ne_bell false sched mode today hour minute st

/-- C1 witness: a concrete BELL-mode tick across midnight resets the
state (start date `0 ↦ 1`, fired-today cleared) and then fires. -/
theorem bell_C1_witness :
    engineStep false [(8, 30)] "BELL" 1 8 30 ⟨[(8, 30)], 0⟩ =
      (⟨[(8, 30)], 1⟩, some true) := by
  have h := (bell_C1_amended [(8, 30)] "BELL" 1 8 30 ⟨[(8, 30)], 0⟩
    (by decide)).1 rfl
  simpa using h

/-- C2: within one calendar day of a run with Mode = BELL throughout,
each schedule entry rings exactly once — the ring count of an entry is
one iff some tick lands in its minute, no matter how many ticks do. -/
theorem bell_C2_exactly_once (today_only : Bool) (sched : List (Nat × Nat))
    (e : Nat × Nat) (d0 : Nat) (ticks : List Tick) (he : e ∈ sched)
    (hticks : ∀ t ∈ ticks, t.mode = "BELL" ∧ t.today = d0) :
    (engineRun today_only sched ticks ⟨[], d0⟩).2.1.count e =
      if ticks.any (fun t => (t.hour, t.minute) == e) then 1 else 0 := by
  have h := engineRun_count_entry today_only sched e d0 he ticks [] hticks
  simpa using h

/-- C2 witness: two poll ticks inside the scheduled minute 08:30 on the
same day ring the bell exactly once. -/
theorem bell_C2_witness :
    (engineRun false [(8, 30)] [⟨"BELL", 0, 8, 30⟩, ⟨"BELL", 0, 8, 30⟩]
      ⟨[], 0⟩).2.1.count (8, 30) = 1 := by
  have h := bell_C2_exactly_once false [(8, 30)] (8, 30) 0
    [⟨"BELL", 0, 8, 30⟩, ⟨"BELL", 0, 8, 30⟩] (by decide) (by decide)
  simpa using h

/-- C3: for every state reachable from the initial state (fired-today
empty) by any sequence of poll ticks, the fired-today set is a subset
of the schedule (fire) set. -/
theorem bell_C3_fired_subset (today_only : Bool) (sched : List (Nat × Nat))
    (d0 : Nat) (ticks : List Tick) (e : Nat × Nat)
    (he : e ∈ (engineRun today_only sched ticks ⟨[], d0⟩).1.rung_today) :
    e ∈ sched :=
  engineRun_rung_subset today_only sched ticks ⟨[], d0⟩ (by simp) e he

/-- C3 witness: after a run that fires 08:30, the fired entry is in the
schedule set. -/
theorem bell_C3_witness : (8, 30) ∈ [(8, 30), (9, 0)] :=
  bell_C3_fired_subset false [(8, 30), (9, 0)] 0 [⟨"BELL", 0, 8, 30⟩] (8, 30)
    (by decide)

/-- C4: on a poll tick with Mode ≠ BELL the engine never rings and never
terminates (the step returns `some false` with the state untouched);
consequently any prefix of non-BELL ticks is a no-op and the run
continues exactly as if polling had just resumed — firing resumes
without restart when the mode returns to BELL. -/
theorem bell_C4_suppressed_not_stopped (today_only : Bool)
    (sched : List (Nat × Nat)) :
    (∀ (mode : String) (today hour minute : Nat) (st : EngineState),
      mode ≠ "BELL" →
      engineStep today_only sched mode today hour minute st = (st, some false))
    ∧ (∀ badTicks : List Tick, (∀ t ∈ badTicks, t.mode ≠ "BELL") →
      ∀ (rest : List Tick) (st : EngineState),
        engineRun today_only sched (badTicks ++ rest) st =
          engineRun today_only sched rest st) :=
  ⟨engineStep_ne_bell today_only sched,
   fun badTicks hbad rest st =>
     engineRun_ne_bell_prefix today_only sched badTicks hbad rest st⟩

/-- C4 witness: a concrete ASSEMBLY-mode tick does nothing, and a run
with an ASSEMBLY-mode tick in front behaves like the run without it. -/
theorem bell_C4_witness :
    engineStep false [(8, 30)] "ASSEMBLY" 0 8 30 ⟨[], 0⟩ = (⟨[], 0⟩, some false) ∧
    engineRun false [(8, 30)] ([⟨"ASSEMBLY", 0, 8, 30⟩] ++ [⟨"BELL", 0, 8, 30⟩])
        ⟨[], 0⟩ =
      engineRun false [(8, 30)] [⟨"BELL", 0, 8, 30⟩] ⟨[], 0⟩ :=
  ⟨(bell_C4_suppressed_not_stopped false [(8, 30)]).1 "ASSEMBLY" 0 8 30 ⟨[], 0⟩
     (by decide),
   (bell_C4_suppressed_not_stopped false [(8, 30)]).2 [⟨"ASSEMBLY", 0, 8, 30⟩]
     (by decide) [⟨"BELL", 0, 8, 30⟩] ⟨[], 0⟩⟩

/-- C5 counterexample: in a today-only run, on the first tick whose date
`1` differs from the start date `0` but whose mode is `"ASSEMBLY"`, the
loop does NOT terminate — the step returns `some false` (keep polling),
because the mode check `continue`s before the today-only break. -/
theorem bell_C5_counterexample :
    engineStep true [(8, 30)] "ASSEMBLY" 1 8 30 ⟨[], 0⟩ =
      (⟨[], 0⟩, some false) := by decide

/-- C5 (amended): in a today-only run, the loop terminates normally (a
`break`, not an error) on the first tick where Mode = BELL and the date
differs from the run's start date: the state is untouched, nothing is
rung, and the remaining ticks are never polled. -/
theorem bell_C5_amended (sched : List (Nat × Nat)) (today hour minute : Nat)
    (st : EngineState) (hd : today ≠ st.start_date) :
    engineStep true sched "BELL" today hour minute st = (st, none)
    ∧ ∀ rest : List Tick,
      engineRun true sched (⟨"BELL", today, hour, minute⟩ :: rest) st =
        (st, [], true) := by
  have hstep : engineStep true sched "BELL" today hour minute st = (st, none) := by
    simp [engineStep, hd]
  exact ⟨hstep, fun rest => by simp [engineRun, hstep]⟩

/-- C5 witness: a concrete BELL-mode tick on the next day stops a
today-only run. -/
theorem bell_C5_witness :
    engineStep true [(8, 30)] "BELL" 1 8 30 ⟨[], 0⟩ = (⟨[], 0⟩, none) :=
  (bell_C5_amended [(8, 30)] 1 8 30 ⟨[], 0⟩ (by decide)).1

/-- C6 counterexample: `update_schedule` stores the list as given, so
putting `["08:30", "08:30", "09:00"]` and getting back yields 3 entries,
not the 2 the claim promises — the store does not de-duplicate. -/
theorem store_C6_counterexample :
    (get_schedule "A" (update_schedule "A" ["08:30", "08:30", "09:00"] [])).map
      List.length = some 3 := by decide

/-- C6 (amended): `update_schedule name times` creates or replaces the
entry for `name`, storing `times` exactly as given (duplicates
included): a subsequent `get_schedule name` returns that very list. -/
theorem store_C6_amended (d : Store) (name : String) (times : List String) :
    get_schedule name (update_schedule name times d) = some times :=
  dictGet_dictSet_self name times d

/-- C7: an empty entries list, or one in which no entry validates as an
in-range `HH:MM` time, makes `ringBell` report no-valid-entries and
return immediately: no loop iteration runs and nothing is ever played. -/
theorem bell_C7_no_valid_entries (schedule_list : List String) (today0 : Nat)
    (today_only : Bool) (ticks : List Tick)
    (h : schedule_list = [] ∨ ∀ t ∈ schedule_list, ringBell_parse t = none) :
    ringBell schedule_list today0 today_only ticks = none := by
  rcases h with h | h
  · subst h; rfl
  · have hfm : schedule_list.filterMap ringBell_parse = [] :=
      List.filterMap_eq_nil.mpr h
    unfold ringBell ringBell_start
    rw [hfm]
    by_cases he : schedule_list = [] <;> simp [he]

/-- C7 witness: the empty list and a list whose only entry fails the
`HH:MM` validation both make `ringBell` return at once. -/
theorem bell_C7_witness :
    ringBell [] 0 false [] = none ∧ ringBell ["9am"] 0 true [] = none :=
  ⟨bell_C7_no_valid_entries [] 0 false [] (Or.inl rfl),
   bell_C7_no_valid_entries ["9am"] 0 true [] (Or.inr (by decide))⟩

/-- C8 counterexample: `"0am"` carries an am marker and its hour digits
resolve to `0`, outside 1–12, yet parsing succeeds (as 00:00) — the
parser never requires the pre-conversion hour to lie in 1–12. -/
theorem parser_C8_counterexample :
    containsSub2 'a' 'm' (pyLower (pyStrip ("0am".data))) = true ∧
    parse_time_to_24h_hm "0am" = .ok (0, 0) := by decide

/-- C8 (amended): with an am marker, hour 12 maps to 0 and any other
hour is taken unchanged; with a pm marker, hour 12 stays 12 and any
other hour gets 12 added; parsing then fails only by the final
`0 ≤ h ≤ 23` range check (shown for all one- and two-digit hours, so
e.g. `0am` and `15am` are accepted rather than rejected). -/
theorem parser_C8_amended (h : Nat) (hh : h ≤ 99) :
    ((parse_time_to_24h_hm ⟨natChars h ++ ['a', 'm']⟩).toOption =
      if h = 12 then some (0, 0)
      else if h ≤ 23 then some ((h : Int), 0) else none) ∧
    ((parse_time_to_24h_hm ⟨natChars h ++ ['p', 'm']⟩).toOption =
      if h = 12 then some (12, 0)
      else if h ≤ 11 then some ((h : Int) + 12, 0) else none) :=
  parse_ampm_all ⟨h, by omega⟩

/-- C8 witness: `"15am"` parses successfully to 15:00. -/
theorem parser_C8_witness :
    (parse_time_to_24h_hm ⟨natChars 15 ++ ['a', 'm']⟩).toOption =
      some (15, 0) := by
  have h := (parser_C8_amended 15 (by decide)).1
  simpa using h

/-- C9: every canonical 24-hour string `"HH:MM"` (hour < 24, minute
< 60) parses successfully back to the same hour/minute pair, and the
formatted result round-trips to the same string. -/
theorem parser_C9_roundtrip (h m : Nat) (hh : h < 24) (hm : m < 60) :
    (parse_time_to_24h_hm (mkHHMM h m)).toOption = some ((h : Int), (m : Int)) ∧
    (parse_time_to_24h (mkHHMM h m)).toOption = some (mkHHMM h m) :=
  parse24_roundtrip_all ⟨h, hh⟩ ⟨m, hm⟩

/-- C9 witness: `"08:30"` round-trips. -/
theorem parser_C9_witness :
    (parse_time_to_24h_hm (mkHHMM 8 30)).toOption = some (8, 30) ∧
    (parse_time_to_24h (mkHHMM 8 30)).toOption = some (mkHHMM 8 30) := by
  exact parser_C9_roundtrip 8 30 (by decide) (by decide)

/-- C10: renaming a present schedule to its own name removes it from the
store entirely (the `del` after the self-assignment deletes the very
entry that was just written), rather than leaving the store unchanged. -/
theorem store_C10_rename_self_deletes (d : Store) (n : String)
    (hnd : (d.map Prod.fst).Nodup) (hmem : (get_schedule n d).isSome) :
    get_schedule n (rename_schedule n n d) = none := by
  rcases hget : dictGet n d with _ | v
  · exact absurd hmem (by simp [get_schedule, hget])
  · show dictGet n (rename_schedule n n d) = none
    unfold rename_schedule
    rw [hget]
    exact dictGet_dictDel_self n (dictSet n v d) (nodup_keys_dictSet n v d hnd)

/-- C10 witness: self-renaming "Regular Day" in the initial store loses
the schedule. -/
theorem store_C10_witness :
    get_schedule "Regular Day"
      (rename_schedule "Regular Day" "Regular Day" BELL_SCHEDULES) = none :=
  store_C10_rename_self_deletes BELL_SCHEDULES "Regular Day" (by decide)
    (by decide)
